import Mathlib

/-!
Verification of the conversation-context assembly and streaming pipeline
of the chat.sudharsana.dev server (Bun + Hono + PostgreSQL + Ollama).

The development shallowly embeds the relevant TypeScript functions:

* `src/lib/summarization.ts`: `shouldTriggerSummarization`, `getSummaryType`,
  `estimateTokenCount`;
* `src/server.ts`: the range bookkeeping of `triggerSummarizationIfNeeded`,
  the message-list construction of the `POST /api/chat` text path, and the
  `streamSSE` callback (events emitted / assistant message persisted);
* `src/lib/ai.ts`: the newline-delimited-JSON stream adapter `streamChat`
  (buffering of partial lines across reads) and the title clean-up of
  `generateTitle`;
* `src/lib/db.ts`: `getSessionMessages` / `getMessageContext`
  (SQL `ORDER BY created_at DESC LIMIT n`, re-ordered ascending);
* `src/lib/search.ts`: `shouldSearchWeb` (keyword triggers and the four
  case-insensitive regular-expression patterns).

JavaScript strings are modelled as `List Char`; JavaScript numbers that hold
message counts are modelled as `Nat`, with subtraction carried out in `Int`
where the source subtraction can go negative.

The file is organised as: all definitions first, then all theorems.
-/

namespace ChatApp

/-! # Definitions -/

/-! ## Summarization triggers (`src/lib/summarization.ts`) -/

/-- Summary types, `"detailed" | "high_level"` in the source. -/
inductive SummaryType where
  | detailed
  | high_level
deriving DecidableEq, Repr

/-- `shouldTriggerSummarization` from `src/lib/summarization.ts`:
`messageCount > 10 && messageCount % 10 === 0`. -/
def shouldTriggerSummarization (messageCount : Nat) : Bool :=
  decide (messageCount > 10) && decide (messageCount % 10 = 0)

/-- `getSummaryType` from `src/lib/summarization.ts`: `high_level` for
counts ≥ 50, `detailed` for counts ≥ 10, otherwise `null`. -/
def getSummaryType (messageCount : Nat) : Option SummaryType :=
  if messageCount ≥ 50 then some .high_level
  else if messageCount ≥ 10 then some .detailed
  else none

/-- `estimateTokenCount` from `src/lib/summarization.ts`:
`Math.ceil(text.length / 4)`. -/
def estimateTokenCount (textLength : Nat) : Nat :=
  (textLength + 3) / 4

/-! ## Summary range bookkeeping (`triggerSummarizationIfNeeded`,
`src/server.ts` lines 772–783):

```ts
const rangeEnd = messageCount;
const rangeStart = Math.max(1, rangeEnd - (summaryType === "detailed" ? 49 : rangeEnd - 1));
```

The subtraction happens on JavaScript numbers, so it is carried out in `Int`.
-/

/-- The `(rangeStart, rangeEnd)` pair saved by `triggerSummarizationIfNeeded`. -/
def summaryRange (messageCount : Nat) (t : SummaryType) : Int × Int :=
  let rangeEnd : Int := (messageCount : Int)
  let rangeStart : Int :=
    max 1 (rangeEnd - (if t = SummaryType.detailed then 49 else rangeEnd - 1))
  (rangeStart, rangeEnd)

/-! ## Message store and context loading (`src/lib/db.ts`)

`getSessionMessages` runs

```sql
SELECT * FROM (
  SELECT * FROM messages WHERE session_id = $1
  ORDER BY created_at DESC LIMIT $2
) sub ORDER BY created_at ASC
```

A session's stored messages are modelled as a list in insertion order with a
`created_at` key; `ORDER BY` is modelled by an insertion sort on that key
(the result is unambiguous because the verified facts assume strictly
increasing timestamps, the §3 invariant of the message store). -/

/-- Message roles, `"user" | "assistant"` in the source. -/
inductive Role where
  | user
  | assistant
deriving DecidableEq, Repr

/-- A row of the `messages` table (fields relevant to context assembly). -/
structure Message where
  created_at : Nat
  role : Role
  content : List Char
deriving DecidableEq, Repr

/-- Insert `a` into `l` before the first element `b` with `le a b`. -/
def insertBy (le : α → α → Bool) (a : α) : List α → List α
  | [] => [a]
  | b :: l => if le a b then a :: b :: l else b :: insertBy le a l

/-- Insertion sort with respect to the boolean comparator `le`. -/
def sortBy (le : α → α → Bool) : List α → List α
  | [] => []
  | a :: l => insertBy le a (sortBy le l)

/-- `ORDER BY created_at ASC`. -/
def msgLe (a b : Message) : Bool := decide (a.created_at ≤ b.created_at)

/-- `ORDER BY created_at DESC`. -/
def msgGe (a b : Message) : Bool := decide (b.created_at ≤ a.created_at)

/-- `getSessionMessages` from `src/lib/db.ts`: the inner query orders the
session's messages newest-first and keeps `limit` of them, the outer query
re-orders that page oldest-first. -/
def getSessionMessages (msgs : List Message) (limit : Nat) : List Message :=
  sortBy msgLe ((sortBy msgGe msgs).take limit)

/-- `getMessageContext` from `src/lib/db.ts`: maps each loaded message to a
`{role, content}` pair (`m.role === "assistant" ? "assistant" : "user"`). -/
def getMessageContext (msgs : List Message) (limit : Nat) :
    List (Role × List Char) :=
  (getSessionMessages msgs limit).map
    (fun m => (if m.role = Role.assistant then Role.assistant else Role.user,
      m.content))

/-! ## Token stream adapter (`streamChat`, `src/lib/ai.ts` lines 87–136)

The adapter reads byte chunks, appends them to a buffer, splits the buffer
on `"\n"`, keeps the final piece as the new buffer, JSON-parses each
complete non-blank line, yields `chunk.message.content` when it is a
non-empty string, and returns as soon as a frame carries `done`; when the
reads are exhausted it parses a non-blank trailing buffer, yielding its
content and silently ignoring a parse failure.

Reads are modelled at character level (`TextDecoder` reassembly of UTF-8 is
below this model), and `JSON.parse` plus the `chunk.message?.content` /
`chunk.done` field accesses are modelled by an arbitrary function
`parse : List Char → Option Frame`: `none` for a line that fails to parse,
and otherwise the extracted content string and done flag.  Every theorem
holds for every such `parse`, so nothing depends on JSON semantics. -/

/-- The data extracted from one parsed stream frame: `message.content`
(empty when absent) and the `done` flag. -/
structure Frame where
  content : List Char
  done : Bool
deriving DecidableEq, Repr

/-- `!line.trim()` in the source: the line has no non-whitespace character. -/
def isBlank (l : List Char) : Bool := l.all Char.isWhitespace

/-- Prepend a pending prefix to the first line of a split result; with an
empty line list the prefix joins the trailing buffer.  (Helper expressing
how a non-newline character extends the line currently being assembled.) -/
def mergeLead (p : List Char) (r : List (List Char) × List Char) :
    List (List Char) × List Char :=
  match r with
  | ([], b) => ([], p ++ b)
  | (l :: ls, b) => ((p ++ l) :: ls, b)

/-- `buffer.split("\n")` followed by `buffer = lines.pop() || ""`:
the complete lines and the retained trailing buffer.  A `"\n"` closes the
line being assembled; any other character extends it via `mergeLead`. -/
def splitNl : List Char → List (List Char) × List Char
  | [] => ([], [])
  | c :: rest =>
      if c = '\n' then ([] :: (splitNl rest).1, (splitNl rest).2)
      else mergeLead [c] (splitNl rest)

/-- The `for (const line of lines)` loop body of `streamChat`: skip blank
lines, skip lines that fail to parse, yield non-empty content, and stop
(returning `true`) at a frame whose `done` flag is set. -/
def processLines (parse : List Char → Option Frame) :
    List (List Char) → List (List Char) × Bool
  | [] => ([], false)
  | line :: rest =>
      if isBlank line then processLines parse rest
      else
        match parse line with
        | none => processLines parse rest
        | some f =>
            if f.done then (if f.content.isEmpty then [] else [f.content], true)
            else ((if f.content.isEmpty then [] else [f.content]) ++
                    (processLines parse rest).1,
                  (processLines parse rest).2)

/-- The `// Process any remaining buffer` block of `streamChat`: parse a
non-blank trailing buffer, yield its non-empty content, ignore failures. -/
def flushBuffer (parse : List Char → Option Frame) (buffer : List Char) :
    List (List Char) :=
  if isBlank buffer then []
  else
    match parse buffer with
    | none => []
    | some f => if f.content.isEmpty then [] else [f.content]

/-- The `while (true) { reader.read() … }` loop of `streamChat`, carrying
the partial-line buffer across reads; a `done` frame ends the stream at
once, discarding the remaining reads. -/
def runReads (parse : List Char → Option Frame) :
    List (List Char) → List Char → List (List Char)
  | [], buffer => flushBuffer parse buffer
  | r :: rs, buffer =>
      if (processLines parse (splitNl (buffer ++ r)).1).2 then
        (processLines parse (splitNl (buffer ++ r)).1).1
      else
        (processLines parse (splitNl (buffer ++ r)).1).1 ++
          runReads parse rs (splitNl (buffer ++ r)).2

/-- `streamChat` from `src/lib/ai.ts`, as the sequence of content fragments
it yields for a given sequence of reads. -/
def streamChat (parse : List Char → Option Frame) (reads : List (List Char)) :
    List (List Char) :=
  runReads parse reads []

/-- Single-pass reference semantics: the fragments produced when the entire
payload arrives in one read. -/
def processAll (parse : List Char → Option Frame) (payload : List Char) :
    List (List Char) :=
  if (processLines parse (splitNl payload).1).2 then
    (processLines parse (splitNl payload).1).1
  else
    (processLines parse (splitNl payload).1).1 ++
      flushBuffer parse (splitNl payload).2

/-- A concrete frame parser used to witness the stream-adapter theorems:
it accepts exactly the line `x`, producing content `hi`. -/
def parseOnlyX : List Char → Option Frame :=
  fun l => if l = ['x'] then some ⟨['h', 'i'], false⟩ else none

/-! ## Retrieval gate (`shouldSearchWeb`, `src/lib/search.ts` lines 88–142)

The source lowercases the message, tests 28 substring triggers against the
lowercased text, and tests four regular expressions with the `i` flag
against the original message.  The patterns contain only ASCII letters, so
the `i` flag is modelled by matching the pattern against the lowercased
text; `Char.toLower` is the same ASCII case map as
`String.prototype.toLowerCase` on the ASCII range the triggers use.
`.` in the patterns matches any character except `"\n"`, as in JavaScript
regular expressions without the `s` flag. -/

/-- The apostrophe character (appears inside several trigger literals). -/
def apos : Char := Char.ofNat 39

/-- Does the pattern (first argument) occur as a prefix of the text? -/
def startsWithList : List Char → List Char → Bool
  | [], _ => true
  | _ :: _, [] => false
  | p :: ps, c :: cs => decide (p = c) && startsWithList ps cs

/-- `String.prototype.includes`: does `sub` occur contiguously in the text? -/
def containsSub (sub : List Char) : List Char → Bool
  | [] => startsWithList sub []
  | c :: rest => startsWithList sub (c :: rest) || containsSub sub rest

/-- Match `.*(w₁|w₂|…)`: one of the words occurs later in the text with no
`"\n"` between the current position and the word. -/
def dotStarWord (ws : List (List Char)) : List Char → Bool
  | [] => false
  | c :: rest =>
      ws.any (fun w => startsWithList w (c :: rest)) ||
        (if c = '\n' then false else dotStarWord ws rest)

/-- Match `(p₁|p₂|…).*(w₁|w₂|…)` anywhere in the text: some prefix
alternative occurs, followed — with no intervening `"\n"` — by some word
alternative. -/
def prefThenWord (ps ws : List (List Char)) : List Char → Bool
  | [] => false
  | c :: rest =>
      ps.any (fun p => startsWithList p (c :: rest) &&
        dotStarWord ws (List.drop p.length (c :: rest))) ||
      prefThenWord ps ws rest

/-- The `searchTriggers` array of `shouldSearchWeb`, already lowercased as
in the source. -/
def searchTriggers : List (List Char) :=
  [ "today".toList, "current".toList, "latest".toList, "recent".toList,
    "now".toList, "weather".toList, "news".toList, "price".toList,
    "stock".toList, "what time".toList, "when is".toList, "where is".toList,
    "how to get to".toList, "directions".toList, "search for".toList,
    "look up".toList, "find me".toList,
    "what".toList ++ [apos] ++ "s happening".toList,
    "score".toList, "results".toList, "who won".toList,
    "release date".toList, "opening hours".toList, "nearby".toList,
    "restaurant".toList, "store".toList, "movie".toList, "show".toList ]

/-- Prefix alternatives of `/what('s| is) the .*(today|now|current)/i`. -/
def p1Prefixes : List (List Char) :=
  [ "what".toList ++ [apos] ++ "s the ".toList, "what is the ".toList ]

/-- Word alternatives of `/what('s| is) the .*(today|now|current)/i`. -/
def p1Words : List (List Char) :=
  [ "today".toList, "now".toList, "current".toList ]

/-- Prefix alternatives of `/how (much|many) .*(cost|price)/i`. -/
def p2Prefixes : List (List Char) :=
  [ "how much ".toList, "how many ".toList ]

/-- Word alternatives of `/how (much|many) .*(cost|price)/i`. -/
def p2Words : List (List Char) :=
  [ "cost".toList, "price".toList ]

/-- The alternatives of `/when (does|did|will|is)/i` (no `.*`, a plain
substring test). -/
def p3Subs : List (List Char) :=
  [ "when does".toList, "when did".toList, "when will".toList,
    "when is".toList ]

/-- Prefix alternative of `/is .* open/i`. -/
def p4Prefixes : List (List Char) := [ "is ".toList ]

/-- Word alternative of `/is .* open/i`. -/
def p4Words : List (List Char) := [ " open".toList ]

/-- The decision of `shouldSearchWeb` on the lowercased message: any
substring trigger, or any of the four time-sensitive patterns. -/
def searchCore (l : List Char) : Bool :=
  searchTriggers.any (fun t => containsSub t l) ||
  prefThenWord p1Prefixes p1Words l ||
  prefThenWord p2Prefixes p2Words l ||
  p3Subs.any (fun t => containsSub t l) ||
  prefThenWord p4Prefixes p4Words l

/-- `shouldSearchWeb` from `src/lib/search.ts`: the triggers run on
`message.toLowerCase()` and the patterns carry the `i` flag, so the whole
decision is a function of the lowercased message. -/
def shouldSearchWeb (message : List Char) : Bool :=
  searchCore (message.map Char.toLower)

/-- The test message `What's the weather today`. -/
def weatherQuestion : List Char :=
  "What".toList ++ [apos] ++ "s the weather today".toList

/-- The test message `Summarize our earlier discussion`. -/
def summarizeRequest : List Char := "Summarize our earlier discussion".toList

/-! ## Title clean-up (`generateTitle`, `src/lib/ai.ts` lines 176–194)

`generateTitle` makes a non-streaming model call and then cleans the reply:

```ts
return response.trim().replace(/^["']|["']$/g, "").slice(0, 50);
```

The clean-up is modelled as a pure function of the reply string.  `trim` is
modelled with Lean's `Char.isWhitespace` (space, tab, CR, LF — the
whitespace the ASCII range of `String.prototype.trim` removes). -/

/-- A double or single quote, the character class `["']`. -/
def isQuote (c : Char) : Bool := c = '"' || c = apos

/-- Remove one leading quote character if present (`/^["']/`). -/
def dropLeadQuote : List Char → List Char
  | [] => []
  | c :: r => if isQuote c then r else c :: r

/-- Remove one trailing quote character if present (`/["']$/`, applied to
whatever remains after the leading match, as the `g` flag does). -/
def dropTrailQuote (l : List Char) : List Char :=
  (dropLeadQuote l.reverse).reverse

/-- `replace(/^["']|["']$/g, "")`: strip at most one leading and at most
one trailing quote. -/
def stripEdgeQuotes (l : List Char) : List Char :=
  dropTrailQuote (dropLeadQuote l)

/-- `trim()`: remove leading and trailing whitespace. -/
def trimChars (l : List Char) : List Char :=
  ((l.dropWhile Char.isWhitespace).reverse.dropWhile Char.isWhitespace).reverse

/-- The clean-up pipeline of `generateTitle`:
`trim`, strip edge quotes, `slice(0, 50)`. -/
def cleanTitle (response : List Char) : List Char :=
  (stripEdgeQuotes (trimChars response)).take 50

/-! ## Prompt assembly of the text path of `POST /api/chat`
(`src/server.ts` lines 806–904)

The handler persists the incoming user message (`createMessage`), then
fetches the conversation context (`getEnhancedContext(sessionId, 5)`), then
builds

```ts
const messages = [ {role:"system"}, ...context, {role:"user", content: enhancedMessage} ];
// Remove the last user message from context since we added enhanced version
messages.pop();
messages.push({ role: "user", content: enhancedMessage });
```

`messages.pop()` removes the element that was just appended — the enhanced
message itself — and the push puts it back, so the pair is a no-op. -/

/-- Roles of prompt messages submitted to the model. -/
inductive ChatRole where
  | system
  | user
  | assistant
deriving DecidableEq, Repr

/-- A `{role, content}` prompt entry (`ChatMessage` in `src/lib/ai.ts`). -/
structure PromptMsg where
  role : ChatRole
  content : List Char
deriving DecidableEq, Repr

/-- Modelled from the spec: `getEnhancedContext` is imported by
`src/server.ts` from `src/lib/db.ts` but its definition is not among the
sources.  Spec §4.2: emit the stored `high_level` summary (if present) and
the stored `detailed` summary (if present) as synthetic context turns,
followed by the last `n` raw messages oldest-first as `{role, content}`
pairs; the raw tail is the repository's own `getMessageContext`. -/
def getEnhancedContext (hl dt : Option (List Char)) (msgs : List Message)
    (n : Nat) : List PromptMsg :=
  (match hl with
   | some s => [⟨ChatRole.system, s⟩]
   | none => []) ++
  (match dt with
   | some s => [⟨ChatRole.system, s⟩]
   | none => []) ++
  (getMessageContext msgs n).map (fun rc =>
    ⟨match rc.1 with
      | Role.assistant => ChatRole.assistant
      | Role.user => ChatRole.user,
     rc.2⟩)

/-- The message list the text path of `POST /api/chat` submits to the
model.  `stored` is the session's message list before this turn and `ts` a
timestamp later than all stored ones; the handler persists
`⟨ts, user, newMsg⟩` first, fetches the context (window 5) afterwards, and
then performs the array construction with the pop/push pair above.
`enhanced` is the user message with any appended search context. -/
def chatPromptMessages (sys : List Char) (hl dt : Option (List Char))
    (stored : List Message) (ts : Nat) (newMsg enhanced : List Char) :
    List PromptMsg :=
  let stored2 := stored ++ [⟨ts, Role.user, newMsg⟩]
  let context := getEnhancedContext hl dt stored2 5
  let messages := ⟨ChatRole.system, sys⟩ :: (context ++ [⟨ChatRole.user, enhanced⟩])
  messages.dropLast ++ [⟨ChatRole.user, enhanced⟩]

/-! ## Streaming relay (`streamSSE` callback of `POST /api/chat`,
`src/server.ts` lines 862–926)

The callback

```ts
try {
  if (searchContext) writeSSE(meta);
  for await (chunk of streamChat(messages)) { fullContent += chunk; writeSSE({content, done:false}); }
  await createMessage(sessionId, "assistant", fullContent);
  writeSSE({content:"", done:true});
} catch (error) { writeSSE({error, done:true}); }
```

is modelled with explicit failure points: the upstream generator may raise
after yielding its fragments (`genError` — an error after a prefix is the
same input with that prefix as `frags`), any `writeSSE` call may throw
(`failAt` is the index of the first failing call, counting from 0), and
`createMessage` may throw (`persistOk`).  The catch-block's own write of
the error event is the handler's terminal emission and is recorded as
such. -/

/-- The SSE events the handler writes. -/
inductive SSEEvent where
  | metaEvt
  | chunkEvt (content : List Char)
  | doneEvt
  | errorEvt
deriving DecidableEq, Repr

/-- Inputs of one streamed chat turn. -/
structure StreamTurnInput where
  search : Bool
  frags : List (List Char)
  genError : Bool
  failAt : Option Nat
  persistOk : Bool
deriving DecidableEq, Repr

/-- Observable outcome: events delivered to the client, and the assistant
message persisted by `createMessage`, if any. -/
structure StreamTurnOutput where
  events : List SSEEvent
  persisted : Option (List Char)
deriving DecidableEq, Repr

/-- One `stream.writeSSE` call: `none` when this call throws (client gone),
otherwise the event is appended and the call counter advances. -/
def tryWriteSSE (failAt : Option Nat) (e : SSEEvent)
    (st : List SSEEvent × Nat) : Option (List SSEEvent × Nat) :=
  if failAt = some st.2 then none else some (st.1 ++ [e], st.2 + 1)

/-- The `for await (const chunk of streamChat(messages))` loop: accumulate
the fragment, then write it; a failed write throws out of the loop.
Returns the accumulated text, the write state, and whether it threw. -/
def streamLoop (failAt : Option Nat) :
    List (List Char) → List Char → List SSEEvent × Nat →
    List Char × (List SSEEvent × Nat) × Bool
  | [], full, st => (full, st, false)
  | f :: fs, full, st =>
      match tryWriteSSE failAt (SSEEvent.chunkEvt f) st with
      | none => (full ++ f, st, true)
      | some st2 => streamLoop failAt fs (full ++ f) st2

/-- Number of `writeSSE` calls of the streaming phase (meta event plus one
per fragment) — the calls that precede `createMessage`. -/
def numStreamWrites (inp : StreamTurnInput) : Nat :=
  (if inp.search then 1 else 0) + inp.frags.length

/-- The whole `streamSSE` callback: meta write, fragment loop, upstream
error point, persistence, done write; every failure lands in the catch
block, which writes the terminal error event. -/
def runChatTurn (inp : StreamTurnInput) : StreamTurnOutput :=
  let st0 : List SSEEvent × Nat := ([], 0)
  match (if inp.search then tryWriteSSE inp.failAt SSEEvent.metaEvt st0
         else some st0) with
  | none => ⟨[SSEEvent.errorEvt], none⟩
  | some st1 =>
      match streamLoop inp.failAt inp.frags [] st1 with
      | (full, st2, thrown) =>
        if thrown then ⟨st2.1 ++ [SSEEvent.errorEvt], none⟩
        else if inp.genError then ⟨st2.1 ++ [SSEEvent.errorEvt], none⟩
        else if !inp.persistOk then ⟨st2.1 ++ [SSEEvent.errorEvt], none⟩
        else
          match tryWriteSSE inp.failAt SSEEvent.doneEvt st2 with
          | none => ⟨st2.1 ++ [SSEEvent.errorEvt], some full⟩
          | some st3 => ⟨st3.1, some full⟩

end ChatApp

namespace ChatApp

/-! # Theorems -/

/-! ## Summarization triggers -/

/-- C2: `shouldTriggerSummarization n` is true iff `n` is a multiple of 10
exceeding 10 (so exactly at 20, 30, 40, …, never at 10), and at every
triggering count the produced type is `detailed` for 20 ≤ n ≤ 40 and
`high_level` for n ≥ 50. -/
theorem trigger_iff_and_type (n : Nat) :
    (shouldTriggerSummarization n = true ↔ (10 < n ∧ n % 10 = 0)) ∧
    (shouldTriggerSummarization n = true →
      ((20 ≤ n ∧ n ≤ 40) → getSummaryType n = some SummaryType.detailed) ∧
      (50 ≤ n → getSummaryType n = some SummaryType.high_level)) := by
  constructor
  · simp [shouldTriggerSummarization]
  · intro _
    constructor
    · intro hn
      have h50 : ¬ (50 ≤ n) := by omega
      have h10 : 10 ≤ n := by omega
      simp [getSummaryType, h50, h10]
    · intro h50
      simp [getSummaryType, h50]

/-- Witness for `trigger_iff_and_type` at n = 20. -/
theorem trigger_iff_and_type_witness :
    shouldTriggerSummarization 20 = true ∧
    getSummaryType 20 = some SummaryType.detailed :=
  ⟨by decide, ((trigger_iff_and_type 20).2 (by decide)).1 (by decide)⟩

/-- C8: whenever the trigger condition holds, `getSummaryType` returns a
non-null summary type, so the null branch of the `if (summaryType)` check in
`triggerSummarizationIfNeeded` (`src/server.ts`) is unreachable. -/
theorem summaryType_some_of_trigger (n : Nat)
    (h : shouldTriggerSummarization n = true) :
    ∃ t, getSummaryType n = some t := by
  have hn : 10 < n ∧ n % 10 = 0 := by
    simpa [shouldTriggerSummarization] using h
  by_cases h50 : 50 ≤ n
  · exact ⟨.high_level, by simp [getSummaryType, h50]⟩
  · have h10 : 10 ≤ n := by omega
    exact ⟨.detailed, by simp [getSummaryType, h50, h10]⟩

/-- Witness for `summaryType_some_of_trigger` at n = 20. -/
theorem summaryType_some_of_trigger_witness :
    ∃ t, getSummaryType 20 = some t :=
  summaryType_some_of_trigger 20 (by decide)

/-- C5: at every triggering count n, the saved range has `end = n`;
`start = max 1 (n − 49)` for a `detailed` summary and `start = 1` for a
`high_level` summary; hence a detailed summary satisfies `end − start ≤ 49`. -/
theorem summaryRange_spec (n : Nat)
    (h : shouldTriggerSummarization n = true) :
    (summaryRange n SummaryType.detailed).2 = (n : Int) ∧
    (summaryRange n SummaryType.high_level).2 = (n : Int) ∧
    (summaryRange n SummaryType.detailed).1 = max 1 ((n : Int) - 49) ∧
    (summaryRange n SummaryType.high_level).1 = 1 ∧
    (summaryRange n SummaryType.detailed).2 -
      (summaryRange n SummaryType.detailed).1 ≤ 49 := by
  have hn : 10 < n ∧ n % 10 = 0 := by
    simpa [shouldTriggerSummarization] using h
  refine ⟨rfl, rfl, rfl, ?_, ?_⟩
  · show max 1 ((n : Int) - ((n : Int) - 1)) = 1
    omega
  · show (n : Int) - max 1 ((n : Int) - 49) ≤ 49
    omega

/-- Witness for `summaryRange_spec` at n = 20. -/
theorem summaryRange_spec_witness :
    (summaryRange 20 SummaryType.detailed).1 = 1 ∧
    (summaryRange 20 SummaryType.high_level).1 = 1 ∧
    (summaryRange 20 SummaryType.detailed).2 = 20 := by
  have h := summaryRange_spec 20 (by decide)
  refine ⟨?_, h.2.2.2.1, h.1⟩
  have h3 := h.2.2.1
  rw [h3]
  decide

/-! ## Message store and context loading -/

/-- Inserting an element that compares `false` against everything in the
list lands at the end. -/
theorem insertBy_of_all_false (le : α → α → Bool) (a : α) (l : List α)
    (h : ∀ b ∈ l, le a b = false) : insertBy le a l = l ++ [a] := by
  induction l with
  | nil => rfl
  | cons b l ih =>
    have hb : le a b = false := h b (List.mem_cons_self b l)
    simp only [insertBy, hb, Bool.false_eq_true, if_false, List.cons_append,
      List.cons.injEq, true_and]
    exact ih (fun c hc => h c (List.mem_cons_of_mem b hc))

/-- Sorting a list that is strictly anti-sorted for the comparator
reverses it. -/
theorem sortBy_of_pairwise_false (le : α → α → Bool) (l : List α)
    (h : l.Pairwise (fun x y => le x y = false)) :
    sortBy le l = l.reverse := by
  induction l with
  | nil => rfl
  | cons a l ih =>
    have hhead : ∀ b ∈ l, le a b = false := (List.pairwise_cons.1 h).1
    have htail := (List.pairwise_cons.1 h).2
    simp only [sortBy, ih htail, List.reverse_cons]
    exact insertBy_of_all_false le a l.reverse
      (fun b hb => hhead b (List.mem_reverse.1 hb))

/-- C6: under the store invariant that timestamps are strictly increasing,
`getSessionMessages` returns exactly the last `limit` stored messages
(all of them when fewer exist) in chronological order, and
`getMessageContext` maps them to `{role, content}` pairs preserving that
order — with no summaries, context assembly is exactly the raw tail. -/
theorem getSessionMessages_last_n (msgs : List Message) (limit : Nat)
    (h : msgs.Pairwise (fun a b => a.created_at < b.created_at)) :
    getSessionMessages msgs limit = msgs.drop (msgs.length - limit) ∧
    getMessageContext msgs limit = (msgs.drop (msgs.length - limit)).map
      (fun m => (if m.role = Role.assistant then Role.assistant else Role.user,
        m.content)) := by
  have hdesc : msgs.Pairwise (fun x y => msgGe x y = false) := by
    refine h.imp ?_
    intro a b hab
    simp only [msgGe, decide_eq_false_iff_not]
    omega
  have h1 : sortBy msgGe msgs = msgs.reverse := sortBy_of_pairwise_false _ _ hdesc
  have h2 : (sortBy msgGe msgs).take limit
      = (msgs.drop (msgs.length - limit)).reverse := by
    rw [h1, List.take_reverse]
  have hdrop : (msgs.drop (msgs.length - limit)).Pairwise
      (fun a b => a.created_at < b.created_at) :=
    h.sublist (List.drop_sublist _ _)
  have hasc : ((msgs.drop (msgs.length - limit)).reverse).Pairwise
      (fun x y => msgLe x y = false) := by
    rw [List.pairwise_reverse]
    refine hdrop.imp ?_
    intro a b hab
    simp only [msgLe, decide_eq_false_iff_not]
    omega
  have hmain : getSessionMessages msgs limit = msgs.drop (msgs.length - limit) := by
    unfold getSessionMessages
    rw [h2, sortBy_of_pairwise_false _ _ hasc, List.reverse_reverse]
  exact ⟨hmain, by unfold getMessageContext; rw [hmain]⟩

/-! ## Token stream adapter -/

/-- `mergeLead` with an empty prefix is the identity. -/
theorem mergeLead_nil (r : List (List Char) × List Char) :
    mergeLead [] r = r := by
  rcases r with ⟨ls, b⟩
  cases ls <;> simp [mergeLead]

/-- Two `mergeLead`s collapse into one with the concatenated prefix. -/
theorem mergeLead_mergeLead (p q : List Char)
    (r : List (List Char) × List Char) :
    mergeLead p (mergeLead q r) = mergeLead (p ++ q) r := by
  rcases r with ⟨ls, b⟩
  cases ls <;> simp [mergeLead]

/-- A payload without `"\n"` splits into no complete line and itself as
the trailing buffer. -/
theorem splitNl_of_not_mem (l : List Char) (h : '\n' ∉ l) :
    splitNl l = ([], l) := by
  induction l with
  | nil => rfl
  | cons c rest ih =>
    have hc : ¬ c = '\n' := fun hc => h (by simp [hc])
    have hr : '\n' ∉ rest := fun hm => h (List.mem_cons_of_mem c hm)
    simp [splitNl, hc, ih hr, mergeLead]

/-- The trailing buffer produced by `splitNl` never contains `"\n"`. -/
theorem not_mem_snd_splitNl (l : List Char) : '\n' ∉ (splitNl l).2 := by
  induction l with
  | nil => simp [splitNl]
  | cons c rest ih =>
    by_cases hc : c = '\n'
    · simpa [splitNl, hc] using ih
    · rcases hsp : splitNl rest with ⟨ls, b⟩
      rw [hsp] at ih
      cases ls with
      | nil =>
        simp only [splitNl, hc, if_false, hsp, mergeLead, List.singleton_append]
        intro hm
        rcases List.mem_cons.1 hm with h1 | h1
        · exact hc h1.symm
        · exact ih h1
      | cons l0 ls2 =>
        simpa [splitNl, hc, hsp, mergeLead] using ih

/-- `splitNl` over a concatenation: the left part's complete lines come
first, its trailing buffer is carried into the right part's first line. -/
theorem splitNl_append (x z : List Char) :
    splitNl (x ++ z) =
      ((splitNl x).1 ++ (mergeLead (splitNl x).2 (splitNl z)).1,
        (mergeLead (splitNl x).2 (splitNl z)).2) := by
  induction x with
  | nil =>
    simp [splitNl, mergeLead_nil]
  | cons c x ih =>
    by_cases hc : c = '\n'
    · simp [splitNl, hc, ih]
    · rcases hsp : splitNl x with ⟨ls, b⟩
      rcases hz : splitNl z with ⟨lz, bz⟩
      rw [hsp, hz] at ih
      cases ls with
      | nil =>
        cases lz with
        | nil => simp [List.cons_append, splitNl, hc, ih, hsp, hz, mergeLead]
        | cons lz0 lzs =>
          simp [List.cons_append, splitNl, hc, ih, hsp, hz, mergeLead]
      | cons l0 ls2 =>
        cases lz with
        | nil => simp [List.cons_append, splitNl, hc, ih, hsp, hz, mergeLead]
        | cons lz0 lzs =>
          simp [List.cons_append, splitNl, hc, ih, hsp, hz, mergeLead]

/-- The line loop over a concatenation of line lists: the left part runs
first; if it hits `done` the right part is never processed. -/
theorem processLines_append (parse : List Char → Option Frame)
    (as bs : List (List Char)) :
    processLines parse (as ++ bs) =
      (if (processLines parse as).2 then processLines parse as
       else ((processLines parse as).1 ++ (processLines parse bs).1,
         (processLines parse bs).2)) := by
  induction as with
  | nil => simp [processLines]
  | cons line rest ih =>
    by_cases hb : isBlank line
    · simp [processLines, hb, ih]
    · cases hp : parse line with
      | none => simp [processLines, hb, hp, ih]
      | some f =>
        by_cases hd : f.done
        · simp [processLines, hb, hp, hd]
        · by_cases h2 : (processLines parse rest).2
          · simp [processLines, hb, hp, hd, ih, h2]
          · simp [processLines, hb, hp, hd, ih, h2, List.append_assoc]

/-- Running the read loop from any `"\n"`-free pending buffer computes the
single-pass semantics of the concatenated payload. -/
theorem runReads_eq_processAll (parse : List Char → Option Frame)
    (reads : List (List Char)) :
    ∀ buffer : List Char, '\n' ∉ buffer →
      runReads parse reads buffer = processAll parse (buffer ++ reads.flatten) := by
  induction reads with
  | nil =>
    intro buffer hb
    have hflat : buffer ++ List.flatten ([] : List (List Char)) = buffer := by
      simp
    rw [hflat]
    show flushBuffer parse buffer = processAll parse buffer
    unfold processAll
    rw [splitNl_of_not_mem buffer hb]
    simp [processLines]
  | cons r rs ih =>
    intro buffer hb
    have hb2 : '\n' ∉ (splitNl (buffer ++ r)).2 := not_mem_snd_splitNl _
    have hsplit : splitNl ((buffer ++ r) ++ rs.flatten) =
        ((splitNl (buffer ++ r)).1 ++
            (splitNl ((splitNl (buffer ++ r)).2 ++ rs.flatten)).1,
          (splitNl ((splitNl (buffer ++ r)).2 ++ rs.flatten)).2) := by
      rw [splitNl_append (buffer ++ r) rs.flatten]
      rw [splitNl_append ((splitNl (buffer ++ r)).2) rs.flatten,
        splitNl_of_not_mem _ hb2]
      simp
    have hjoin : buffer ++ (r :: rs).flatten = (buffer ++ r) ++ rs.flatten := by
      simp
    rw [runReads, ih _ hb2, hjoin]
    unfold processAll
    rw [hsplit]
    simp only [processLines_append]
    by_cases h2 : (processLines parse (splitNl (buffer ++ r)).1).2
    · simp [h2]
    · simp only [h2, if_false, Bool.false_eq_true]
      by_cases h3 :
          (processLines parse (splitNl ((splitNl (buffer ++ r)).2 ++ rs.flatten)).1).2
      · simp [h3]
      · simp [h3, List.append_assoc]

/-- C4: for every payload of newline-delimited frames and every way of
splitting it into successive reads, `streamChat` yields exactly the
fragment sequence it yields when the whole payload arrives in one read. -/
theorem streamChat_read_split_invariant (parse : List Char → Option Frame)
    (reads : List (List Char)) :
    streamChat parse reads = streamChat parse [reads.flatten] := by
  unfold streamChat
  rw [runReads_eq_processAll parse reads [] (by simp),
    runReads_eq_processAll parse [reads.flatten] [] (by simp)]
  simp

/-- C9: when the byte stream closes without a `done` frame and the whole
payload is a single unterminated line, `streamChat` still parses the
trailing buffer and yields its (non-empty) content; if that buffer fails
to parse, it is silently ignored and the stream ends with no fragments. -/
theorem streamChat_trailing_buffer (parse : List Char → Option Frame)
    (reads : List (List Char)) (h : '\n' ∉ reads.flatten) :
    (parse reads.flatten = none → streamChat parse reads = []) ∧
    (∀ f, parse reads.flatten = some f → isBlank reads.flatten = false →
      streamChat parse reads = if f.content.isEmpty then [] else [f.content]) := by
  have hrun : streamChat parse reads = flushBuffer parse reads.flatten := by
    unfold streamChat
    rw [runReads_eq_processAll parse reads [] (by simp)]
    simp only [List.nil_append]
    unfold processAll
    rw [splitNl_of_not_mem _ h]
    simp [processLines]
  constructor
  · intro hp
    rw [hrun]
    unfold flushBuffer
    rw [hp]
    split <;> rfl
  · intro f hp hblank
    rw [hrun]
    unfold flushBuffer
    rw [hp, hblank]
    simp

/-- Witness for `streamChat_trailing_buffer`: the single read `"x"` (no
trailing newline, no `done` frame) yields exactly the fragment `"hi"`
under the concrete parser `parseOnlyX`. -/
theorem streamChat_trailing_buffer_witness :
    parseOnlyX (List.flatten [['x']]) = some ⟨['h', 'i'], false⟩ ∧
    streamChat parseOnlyX [['x']] = [['h', 'i']] := by
  constructor
  · decide
  · have h := (streamChat_trailing_buffer parseOnlyX [['x']] (by decide)).2
      ⟨['h', 'i'], false⟩ (by decide) (by decide)
    simpa using h

/-- Witness for `getSessionMessages_last_n` on a concrete three-message
session with limit 2. -/
theorem getSessionMessages_last_n_witness :
    getSessionMessages
      [⟨1, Role.user, ['a']⟩, ⟨2, Role.assistant, ['b']⟩, ⟨3, Role.user, ['c']⟩]
      2 = [⟨2, Role.assistant, ['b']⟩, ⟨3, Role.user, ['c']⟩] := by
  have h := getSessionMessages_last_n
    [⟨1, Role.user, ['a']⟩, ⟨2, Role.assistant, ['b']⟩, ⟨3, Role.user, ['c']⟩]
    2 (by decide)
  rw [h.1]
  decide

/-! ## Retrieval gate -/

/-- C7: `shouldSearchWeb` answers true on `What's the weather today`,
false on `Summarize our earlier discussion`, and its decision is
case-insensitive: two messages equal up to letter case get the same
answer. -/
theorem shouldSearchWeb_spec :
    shouldSearchWeb weatherQuestion = true ∧
    shouldSearchWeb summarizeRequest = false ∧
    ∀ s t : List Char, s.map Char.toLower = t.map Char.toLower →
      shouldSearchWeb s = shouldSearchWeb t := by
  refine ⟨by decide, by decide, ?_⟩
  intro s t h
  unfold shouldSearchWeb
  rw [h]

/-- Witness for `shouldSearchWeb_spec`: the re-casings `NOW` and `now`
get the same answer. -/
theorem shouldSearchWeb_spec_witness :
    ("NOW".toList.map Char.toLower = "now".toList.map Char.toLower) ∧
    shouldSearchWeb "NOW".toList = shouldSearchWeb "now".toList :=
  ⟨by decide, shouldSearchWeb_spec.2.2 "NOW".toList "now".toList (by decide)⟩

/-! ## Title clean-up -/

/-- Dropping a leading quote removes at most one character. -/
theorem dropLeadQuote_length (l : List Char) :
    l.length ≤ (dropLeadQuote l).length + 1 := by
  cases l with
  | nil => simp [dropLeadQuote]
  | cons c r =>
    by_cases hq : isQuote c = true
    · simp [dropLeadQuote, hq]
    · simp [dropLeadQuote, hq]

/-- C10: the title produced by `generateTitle` from a model reply has at
most 50 characters; it is the reply trimmed of surrounding whitespace,
stripped of at most one leading and one trailing quote character (together
the strip removes at most two characters), and truncated to 50 characters;
the empty reply gives the empty title. -/
theorem cleanTitle_spec (r : List Char) :
    (cleanTitle r).length ≤ 50 ∧
    cleanTitle r = (stripEdgeQuotes (trimChars r)).take 50 ∧
    (trimChars r).length ≤ (stripEdgeQuotes (trimChars r)).length + 2 ∧
    cleanTitle [] = [] := by
  refine ⟨?_, rfl, ?_, rfl⟩
  · simp only [cleanTitle, List.length_take]
    omega
  · have h1 := dropLeadQuote_length (trimChars r)
    have h2 := dropLeadQuote_length (dropLeadQuote (trimChars r)).reverse
    simp only [stripEdgeQuotes, dropTrailQuote, List.length_reverse] at h2 ⊢
    omega

/-! ## Prompt assembly of the text path of `POST /api/chat` -/

/-- C1 fails on the code: for a fresh session whose first user message is
`hello` (no search context, so the enhanced message equals the message),
the submitted list is `[system, {user,hello}, {user,hello}]` — the new
user turn enters once through the re-read context (the handler persists
before fetching context) and once through the direct append, because
`messages.pop()` removes the element just pushed rather than the context
copy; the new turn is submitted twice, not exactly once. -/
theorem chatPrompt_duplicates_user_turn :
    chatPromptMessages ['s'] none none [] 1 "hello".toList "hello".toList =
      [⟨ChatRole.system, ['s']⟩,
       ⟨ChatRole.user, "hello".toList⟩,
       ⟨ChatRole.user, "hello".toList⟩] ∧
    (chatPromptMessages ['s'] none none [] 1 "hello".toList
        "hello".toList).count ⟨ChatRole.user, "hello".toList⟩ = 2 := by
  decide

/-! ## Streaming relay -/

/-- A fragment loop in which no write fails delivers every fragment in
order and accumulates the full text. -/
theorem streamLoop_ok (failAt : Option Nat) (fs : List (List Char))
    (full : List Char) (evs : List SSEEvent) (c : Nat)
    (h : ∀ j, failAt = some j → j < c ∨ c + fs.length ≤ j) :
    streamLoop failAt fs full (evs, c) =
      (full ++ fs.flatten, (evs ++ fs.map SSEEvent.chunkEvt, c + fs.length),
        false) := by
  induction fs generalizing full evs c with
  | nil => simp [streamLoop]
  | cons f fs ih =>
    have hne : failAt ≠ some c := by
      intro hc
      have := h c hc
      simp only [List.length_cons] at this
      omega
    have hnext : ∀ j, failAt = some j → j < c + 1 ∨ (c + 1) + fs.length ≤ j := by
      intro j hj
      have := h j hj
      simp only [List.length_cons] at this
      rcases this with h1 | h1
      · by_cases hjc : j = c
        · exact absurd (hjc ▸ hj) hne
        · left; omega
      · right; omega
    simp only [streamLoop, tryWriteSSE]
    rw [if_neg hne]
    show streamLoop failAt fs (full ++ f) (evs ++ [SSEEvent.chunkEvt f], c + 1) = _
    rw [ih (full ++ f) (evs ++ [SSEEvent.chunkEvt f]) (c + 1) hnext]
    simp only [List.flatten_cons, List.map_cons, List.append_assoc,
      List.singleton_append, List.length_cons, Prod.mk.injEq, true_and,
      and_true]
    omega

/-- A fragment loop whose failing write index lies within the loop's write
range throws. -/
theorem streamLoop_fail (failAt : Option Nat) (fs : List (List Char))
    (full : List Char) (evs : List SSEEvent) (c j : Nat)
    (hj : failAt = some j) (h1 : c ≤ j) (h2 : j < c + fs.length) :
    (streamLoop failAt fs full (evs, c)).2.2 = true := by
  induction fs generalizing full evs c with
  | nil =>
    simp only [List.length_nil] at h2
    omega
  | cons f fs ih =>
    by_cases hc : j = c
    · subst hc
      simp [streamLoop, tryWriteSSE, hj]
    · have hne : failAt ≠ some c := by
        rw [hj]
        intro hcc
        exact hc (Option.some.inj hcc)
      simp only [streamLoop, tryWriteSSE]
      rw [if_neg hne]
      exact ih (full ++ f) (evs ++ [SSEEvent.chunkEvt f]) (c + 1)
        (by omega) (by simp only [List.length_cons] at h2; omega)

/-- A fragment loop that did not throw accumulated the whole text. -/
theorem streamLoop_complete (failAt : Option Nat) (fs : List (List Char))
    (full : List Char) (st : List SSEEvent × Nat)
    (h : (streamLoop failAt fs full st).2.2 = false) :
    (streamLoop failAt fs full st).1 = full ++ fs.flatten := by
  induction fs generalizing full st with
  | nil => simp [streamLoop]
  | cons f fs ih =>
    rcases htw : tryWriteSSE failAt (SSEEvent.chunkEvt f) st with _ | st2
    · simp [streamLoop, htw] at h
    · simp only [streamLoop, htw] at h ⊢
      rw [ih (full ++ f) st2 h]
      simp [List.append_assoc]

/-- C3: any error raised during the streaming phase — the meta write, a
fragment write to the client (a `writeSSE` whose call index lies below the
number of streaming-phase writes), or the upstream generator — makes the
handler emit the terminal `{error, done:true}` event and persist no
assistant message; conversely an assistant message is persisted only when
the fragment stream completed successfully (all fragments delivered, no
upstream error), and what is persisted is the full accumulated text. -/
theorem streamTurn_spec (inp : StreamTurnInput) :
    ((inp.genError = true ∨
        (∃ j, inp.failAt = some j ∧ j < numStreamWrites inp)) →
      (runChatTurn inp).persisted = none ∧
      (runChatTurn inp).events.getLast? = some SSEEvent.errorEvt) ∧
    (∀ s, (runChatTurn inp).persisted = some s →
      s = inp.frags.flatten ∧ inp.genError = false ∧ inp.persistOk = true ∧
      ∀ j, inp.failAt = some j → numStreamWrites inp ≤ j) := by
  rcases inp with ⟨search, frags, genError, failAt, persistOk⟩
  cases search with
  | false =>
    rcases hsl : streamLoop failAt frags [] ([], 0) with ⟨full, st2, thrown⟩
    cases thrown with
    | true =>
      refine ⟨fun _ => ?_, fun s hps => ?_⟩
      · simp [runChatTurn, hsl, List.getLast?_concat]
      · simp [runChatTurn, hsl] at hps
    | false =>
      cases genError with
      | true =>
        refine ⟨fun _ => ?_, fun s hps => ?_⟩
        · simp [runChatTurn, hsl, List.getLast?_concat]
        · simp [runChatTurn, hsl] at hps
      | false =>
        cases persistOk with
        | false =>
          refine ⟨fun _ => ?_, fun s hps => ?_⟩
          · simp [runChatTurn, hsl, List.getLast?_concat]
          · simp [runChatTurn, hsl] at hps
        | true =>
          have hnofail : ∀ j, failAt = some j → frags.length ≤ j := by
            intro j hj
            by_contra hlt
            push_neg at hlt
            have hf := streamLoop_fail failAt frags [] [] 0 j hj
              (by omega) (by omega)
            rw [hsl] at hf
            simp at hf
          have hfull : full = frags.flatten := by
            have hc := streamLoop_complete failAt frags [] ([], 0)
              (by rw [hsl])
            rw [hsl] at hc
            simpa using hc
          refine ⟨fun h => ?_, fun s hps => ?_⟩
          · rcases h with hg | ⟨j, hj, hjlt⟩
            · simp at hg
            · have := hnofail j hj
              simp [numStreamWrites] at hjlt
              omega
          · rcases hdw : tryWriteSSE failAt SSEEvent.doneEvt st2 with _ | st3
            · simp [runChatTurn, hsl, hdw] at hps
              exact ⟨by rw [← hps]; exact hfull, rfl, rfl, fun j hj => by
                have := hnofail j hj
                simp [numStreamWrites]
                omega⟩
            · simp [runChatTurn, hsl, hdw] at hps
              exact ⟨by rw [← hps]; exact hfull, rfl, rfl, fun j hj => by
                have := hnofail j hj
                simp [numStreamWrites]
                omega⟩
  | true =>
    by_cases h0 : failAt = some 0
    · have hmeta : tryWriteSSE failAt SSEEvent.metaEvt ([], 0) = none := by
        simp [tryWriteSSE, h0]
      refine ⟨fun _ => ?_, fun s hps => ?_⟩
      · simp [runChatTurn, hmeta]
      · simp [runChatTurn, hmeta] at hps
    · have hmeta : tryWriteSSE failAt SSEEvent.metaEvt ([], 0)
          = some ([SSEEvent.metaEvt], 1) := by
        simp [tryWriteSSE, h0]
      rcases hsl : streamLoop failAt frags [] ([SSEEvent.metaEvt], 1)
        with ⟨full, st2, thrown⟩
      cases thrown with
      | true =>
        refine ⟨fun _ => ?_, fun s hps => ?_⟩
        · simp [runChatTurn, hmeta, hsl, List.getLast?_concat]
        · simp [runChatTurn, hmeta, hsl] at hps
      | false =>
        cases genError with
        | true =>
          refine ⟨fun _ => ?_, fun s hps => ?_⟩
          · simp [runChatTurn, hmeta, hsl, List.getLast?_concat]
          · simp [runChatTurn, hmeta, hsl] at hps
        | false =>
          cases persistOk with
          | false =>
            refine ⟨fun _ => ?_, fun s hps => ?_⟩
            · simp [runChatTurn, hmeta, hsl, List.getLast?_concat]
            · simp [runChatTurn, hmeta, hsl] at hps
          | true =>
            have hnofail : ∀ j, failAt = some j → 1 + frags.length ≤ j := by
              intro j hj
              by_contra hlt
              push_neg at hlt
              have hj1 : 1 ≤ j := by
                rcases Nat.eq_zero_or_pos j with hz | hz
                · exact absurd (hz ▸ hj) h0
                · omega
              have hf := streamLoop_fail failAt frags [] [SSEEvent.metaEvt]
                1 j hj hj1 (by omega)
              rw [hsl] at hf
              simp at hf
            have hfull : full = frags.flatten := by
              have hc := streamLoop_complete failAt frags []
                ([SSEEvent.metaEvt], 1) (by rw [hsl])
              rw [hsl] at hc
              simpa using hc
            refine ⟨fun h => ?_, fun s hps => ?_⟩
            · rcases h with hg | ⟨j, hj, hjlt⟩
              · simp at hg
              · have := hnofail j hj
                simp [numStreamWrites] at hjlt
                omega
            · rcases hdw : tryWriteSSE failAt SSEEvent.doneEvt st2 with _ | st3
              · simp [runChatTurn, hmeta, hsl, hdw] at hps
                exact ⟨by rw [← hps]; exact hfull, rfl, rfl, fun j hj => by
                  have := hnofail j hj
                  simp [numStreamWrites]
                  omega⟩
              · simp [runChatTurn, hmeta, hsl, hdw] at hps
                exact ⟨by rw [← hps]; exact hfull, rfl, rfl, fun j hj => by
                  have := hnofail j hj
                  simp [numStreamWrites]
                  omega⟩

/-- Witness for `streamTurn_spec`: an upstream failure right after the
fragment `hi` (no search, no failed writes) terminates the stream with the
error event and persists nothing. -/
theorem streamTurn_spec_witness :
    (runChatTurn ⟨false, [['h', 'i']], true, none, true⟩).persisted = none ∧
    (runChatTurn ⟨false, [['h', 'i']], true, none, true⟩).events.getLast? =
      some SSEEvent.errorEvt :=
  (streamTurn_spec ⟨false, [['h', 'i']], true, none, true⟩).1 (Or.inl rfl)

end ChatApp

